import Mathlib

/-!
Verification of the microECS storage core (component pools, registry, view,
in-place quicksort) against its natural-language specification.

The C++ sources are shallowly embedded:

* `ComponentPool` (ComponentPool.h): the raw byte buffer `m_pComponents`
  becomes the typed list `components` holding exactly the `m_Count` live
  elements (the C++ buffer's capacity `m_PoolSize` is kept as a plain
  number; the dead capacity tail carries no observable data).
  `m_EntityToComponentMap` (a `std::unordered_map<EntityID, size_t>`)
  becomes an association list with C++-map update semantics
  (`operator[]` assignment replaces the unique binding, else inserts);
  `m_ComponentToEntityMap` (a `std::vector<uint32_t>`) becomes `List Nat`.
* `Registry` (Registry.h): pools, the type map (`std::type_index` modelled
  as an opaque `Nat` token), the name map, the free-id queue and the
  next-id counter.  `m_Entities` is declared but never used by the source
  and is omitted.
* `World::Sort` / `partition` / `quicksort` (World.h): the Lomuto
  quicksort over one pool, with `int` indices modelled as `Int`.
* `View::Each` (View.h): modelled by the list of entity ids for which the
  callback fires, in loop order.

Entity ids (`uint32_t`) and component ids (`uint8_t`) are modelled as `Nat`
with explicit wrap-around (`% 2^32`, `% 2^8`) at the arithmetic points
where the C++ performs conversions.
-/

namespace MicroECS

/-- Constants from core/Types.h. -/
def INIT_COMPONENT_POOL_SIZE : Nat := 32

/-- INVALID_COMPONENT_ID = numeric_limits of uint8_t = 255 (Types.h). -/
def INVALID_COMPONENT_ID : Nat := 255

/-- INVALID_ENTITY_ID = numeric_limits of uint32_t (Types.h). -/
def INVALID_ENTITY_ID : Nat := 2 ^ 32 - 1

/-- MAX_COMPONENT_TYPES = numeric_limits of uint8_t minus one = 254 (Types.h). -/
def MAX_COMPONENT_TYPES : Nat := 254

/-! ### Association lists with C++ `std::unordered_map` semantics

`assocFind` is `find`/`at`/`count`-style lookup; `assocSet` is the
assignment `m[k] = v` (replaces the unique existing binding, otherwise
inserts); `assocErase` is `m.erase(k)`.  A real `unordered_map` has at most
one binding per key, so replacing the first binding and dropping every
binding of the key are faithful models. -/

def assocFind {κ β : Type} [DecidableEq κ] : List (κ × β) → κ → Option β
  | [], _ => none
  | q :: rest, k => if q.1 = k then some q.2 else assocFind rest k

def assocSet {κ β : Type} [DecidableEq κ] : List (κ × β) → κ → β → List (κ × β)
  | [], k, v => [(k, v)]
  | q :: rest, k, v => if q.1 = k then (k, v) :: rest else q :: assocSet rest k v

def assocErase {κ β : Type} [DecidableEq κ] : List (κ × β) → κ → List (κ × β)
  | [], _ => []
  | q :: rest, k => if q.1 = k then assocErase rest k else q :: assocErase rest k

theorem assocFind_assocSet {κ β : Type} [DecidableEq κ] (m : List (κ × β)) (k k' : κ) (v : β) :
    assocFind (assocSet m k v) k' = if k = k' then some v else assocFind m k' := by
  induction m with
  | nil =>
    by_cases h : k = k' <;> simp [assocSet, assocFind, h]
  | cons q rest ih =>
    by_cases hq : q.1 = k
    · by_cases h : k = k'
      · simp [assocSet, assocFind, hq, h]
      · have hqk' : ¬ q.1 = k' := fun hc => h (hq.symm.trans hc)
        simp [assocSet, assocFind, hq, h, hqk']
    · by_cases h : q.1 = k'
      · have hkk' : ¬ k = k' := fun hc => hq (h.trans hc.symm)
        have hk'k : ¬ k' = k := fun hc => hkk' hc.symm
        simp [assocSet, assocFind, hq, h, hkk', hk'k]
      · simp [assocSet, assocFind, hq, h, ih]

theorem assocSet_length_of_find_isSome {κ β : Type} [DecidableEq κ]
    (m : List (κ × β)) (k : κ) (v : β) (h : (assocFind m k).isSome) :
    (assocSet m k v).length = m.length := by
  induction m with
  | nil => simp [assocFind] at h
  | cons q rest ih =>
    by_cases hq : q.1 = k
    · simp [assocSet, hq]
    · simp [assocFind, hq] at h
      simp [assocSet, hq, ih h]

theorem assocSet_length_of_none {κ β : Type} [DecidableEq κ]
    (m : List (κ × β)) (k : κ) (v : β) (h : assocFind m k = none) :
    (assocSet m k v).length = m.length + 1 := by
  induction m with
  | nil => rfl
  | cons q rest ih =>
    by_cases hq : q.1 = k
    · rw [assocFind, if_pos hq] at h
      exact absurd h (by simp)
    · rw [assocFind, if_neg hq] at h
      rw [assocSet, if_neg hq]
      simp [ih h]

theorem assocFind_assocErase {κ β : Type} [DecidableEq κ] (m : List (κ × β)) (k k' : κ) :
    assocFind (assocErase m k) k' = if k = k' then none else assocFind m k' := by
  induction m with
  | nil => by_cases h : k = k' <;> simp [assocErase, assocFind, h]
  | cons q rest ih =>
    by_cases hq : q.1 = k
    · by_cases h : k = k'
      · subst h
        simpa [assocErase, assocFind, hq] using ih
      · have hqk' : ¬ q.1 = k' := fun hc => h (hq.symm.trans hc)
        simp [assocErase, assocFind, hq, h, hqk', ih]
    · by_cases h : q.1 = k'
      · have hkk' : ¬ k = k' := fun hc => hq (h.trans hc.symm)
        have hk'k : ¬ k' = k := fun hc => hkk' hc.symm
        simp [assocErase, assocFind, hq, h, hkk', hk'k]
      · simp [assocErase, assocFind, hq, h, ih]

theorem assocFind_mem {κ β : Type} [DecidableEq κ] (m : List (κ × β)) (k : κ) (v : β)
    (h : assocFind m k = some v) : (k, v) ∈ m := by
  induction m with
  | nil => simp [assocFind] at h
  | cons q rest ih =>
    by_cases hq : q.1 = k
    · simp [assocFind, hq] at h
      have : q = (k, v) := by
        cases q
        simp only at hq h
        simp [hq, h]
      exact this ▸ List.mem_cons_self _ _
    · simp [assocFind, hq] at h
      exact List.mem_cons_of_mem _ (ih h)

/-! ### Helper lemmas about `List.getD`, `List.set`, `List.dropLast` -/

theorem getD_cons_zero {α : Type} (a : α) (l : List α) (d : α) : (a :: l).getD 0 d = a := rfl

theorem getD_cons_succ {α : Type} (a : α) (l : List α) (n : Nat) (d : α) :
    (a :: l).getD (n + 1) d = l.getD n d := rfl

theorem getD_nil {α : Type} (n : Nat) (d : α) : ([] : List α).getD n d = d := rfl

theorem getD_of_length_le {α : Type} (l : List α) (n : Nat) (d : α) (h : l.length ≤ n) :
    l.getD n d = d := by
  induction l generalizing n with
  | nil => exact getD_nil n d
  | cons a t ih =>
    cases n with
    | zero => simp at h
    | succ m =>
      rw [getD_cons_succ]
      exact ih m (by simpa using h)

theorem getD_set_self {α : Type} (l : List α) (i : Nat) (a d : α) (h : i < l.length) :
    (l.set i a).getD i d = a := by
  induction l generalizing i with
  | nil => simp at h
  | cons b t ih =>
    cases i with
    | zero => rfl
    | succ m =>
      rw [List.set_cons_succ, getD_cons_succ]
      exact ih m (by simpa using h)

theorem getD_set_ne {α : Type} (l : List α) (i j : Nat) (a d : α) (h : i ≠ j) :
    (l.set i a).getD j d = l.getD j d := by
  induction l generalizing i j with
  | nil => simp [List.set]
  | cons b t ih =>
    cases i with
    | zero =>
      cases j with
      | zero => exact absurd rfl h
      | succ mj => rfl
    | succ mi =>
      cases j with
      | zero => rfl
      | succ mj =>
        rw [List.set_cons_succ, getD_cons_succ, getD_cons_succ]
        exact ih mi mj (fun hc => h (by rw [hc]))

theorem getD_append_left {α : Type} (l l' : List α) (i : Nat) (d : α) (h : i < l.length) :
    (l ++ l').getD i d = l.getD i d := by
  induction l generalizing i with
  | nil => simp at h
  | cons b t ih =>
    cases i with
    | zero => rfl
    | succ m =>
      rw [List.cons_append, getD_cons_succ, getD_cons_succ]
      exact ih m (by simpa using h)

theorem getD_append_length {α : Type} (l : List α) (a d : α) :
    (l ++ [a]).getD l.length d = a := by
  induction l with
  | nil => rfl
  | cons b t ih => simp [ih, getD_cons_succ]

theorem getD_dropLast {α : Type} (l : List α) (i : Nat) (d : α) (h : i + 1 < l.length) :
    l.dropLast.getD i d = l.getD i d := by
  induction l generalizing i with
  | nil => simp at h
  | cons b t ih =>
    cases t with
    | nil => simp at h
    | cons c u =>
      cases i with
      | zero => rfl
      | succ m =>
        rw [List.dropLast_cons_of_ne_nil (by simp), getD_cons_succ, getD_cons_succ]
        exact ih m (by simpa using h)

/-! ### ComponentPool (microECS/core/ComponentPool.h)

`components` is the live region of `m_pComponents` (slots `0 ≤ i < m_Count`
of the raw buffer, read through the element type); `count` is `m_Count`;
`poolSize` is the capacity `m_PoolSize`; `entityToComponentMap` is
`m_EntityToComponentMap`; `componentToEntityMap` is `m_ComponentToEntityMap`;
`sorted` is `m_Sorted`.  The byte-level fields `m_ComponentSize`,
`m_Alignment` and the debug name `m_Name` have no observable effect on the
typed operations and are not represented. -/

structure ComponentPool (α : Type) where
  components : List α
  count : Nat
  poolSize : Nat
  entityToComponentMap : List (Nat × Nat)
  componentToEntityMap : List Nat
  sorted : Bool

namespace ComponentPool

variable {α : Type}

/-- A freshly constructed pool: count 0, capacity INIT_COMPONENT_POOL_SIZE,
`m_Sorted` initialised to `false`. -/
def mkPool : ComponentPool α :=
  { components := [], count := 0, poolSize := INIT_COMPONENT_POOL_SIZE,
    entityToComponentMap := [], componentToEntityMap := [], sorted := false }

/-- ComponentPool::AddComponentToPool: grow capacity when full, then write the
element at slot `m_Count` and increment `m_Count`. -/
def AddComponentToPool (p : ComponentPool α) (v : α) : ComponentPool α :=
  let p1 := if p.count = p.poolSize then { p with poolSize := p.poolSize * 2 } else p
  { p1 with components := p1.components ++ [v], count := p1.count + 1 }

/-- ComponentPool::AddComponent: bind `slot_of[e] := m_Count`, append `e` to
the dense map, then append the element. -/
def AddComponent (p : ComponentPool α) (e : Nat) (v : α) : ComponentPool α :=
  AddComponentToPool
    { p with entityToComponentMap := assocSet p.entityToComponentMap e p.count,
             componentToEntityMap := p.componentToEntityMap ++ [e] }
    v

/-- The read `m_EntityToComponentMap[entityID]`: `unordered_map::operator[]`
returns the bound slot, value-initialising a `0` binding when the key is
absent.  Returns the (possibly extended) map together with the slot. -/
def mapIndex (m : List (Nat × Nat)) (e : Nat) : List (Nat × Nat) × Nat :=
  match assocFind m e with
  | some s => (m, s)
  | none => (m ++ [(e, 0)], 0)

/-- ComponentPool::SetComponent: overwrite the element at `slot_of[e]`. -/
def SetComponent (p : ComponentPool α) (e : Nat) (v : α) : ComponentPool α :=
  let mi := mapIndex p.entityToComponentMap e
  { p with entityToComponentMap := mi.1, components := p.components.set mi.2 v }

/-- ComponentPool::RemoveComponentFromPool: copy the last live element over
slot `index` when they differ, then decrement `m_Count`.  In the live-region
model the dead last slot is dropped from `components`. -/
def RemoveComponentFromPool (p : ComponentPool α) (index : Nat) : ComponentPool α :=
  let comps :=
    if index ≠ p.count - 1 then
      match p.components.get? (p.count - 1) with
      | some last => p.components.set index last
      | none => p.components
    else p.components
  { p with components := comps.dropLast, count := p.count - 1 }

/-- ComponentPool::RemoveComponent: look up the slot, swap-remove the element,
patch the dense/sparse maps when the removed slot was not the last one, then
erase `e` and pop the dense tail. -/
def RemoveComponent (p : ComponentPool α) (e : Nat) : ComponentPool α :=
  let mi := mapIndex p.entityToComponentMap e
  let index := mi.2
  let p1 := RemoveComponentFromPool { p with entityToComponentMap := mi.1 } index
  let p2 :=
    if index ≠ p1.componentToEntityMap.length - 1 then
      let lastEntityID := p1.componentToEntityMap.getD (p1.componentToEntityMap.length - 1) 0
      { p1 with componentToEntityMap := p1.componentToEntityMap.set index lastEntityID,
                entityToComponentMap := assocSet p1.entityToComponentMap lastEntityID index }
    else p1
  { p2 with entityToComponentMap := assocErase p2.entityToComponentMap e,
            componentToEntityMap := p2.componentToEntityMap.dropLast }

/-- ComponentPool::GetComponent: `m_EntityToComponentMap.at(entityID)` (throws
when absent, modelled as `none`), then read the element at that slot. -/
def GetComponent [Inhabited α] (p : ComponentPool α) (e : Nat) : Option α :=
  (assocFind p.entityToComponentMap e).map (fun s => p.components.getD s default)

/-- ComponentPool::HasEntity. -/
def HasEntity (p : ComponentPool α) (e : Nat) : Bool :=
  (assocFind p.entityToComponentMap e).isSome

/-- ComponentPool::GetCount (= Size). -/
def GetCount (p : ComponentPool α) : Nat := p.count

/-- ComponentPool::Size: also returns `m_Count`. -/
def Size (p : ComponentPool α) : Nat := p.count

/-- ComponentPool::GetEntityID: dense-map entry at `index`. -/
def GetEntityID (p : ComponentPool α) (index : Nat) : Nat :=
  p.componentToEntityMap.getD index 0

/-- ComponentPool::SwapMaps: swap the dense entries at `index1`, `index2` and
rebind both entities' sparse entries. -/
def SwapMaps (p : ComponentPool α) (index1 index2 : Nat) : ComponentPool α :=
  let entityID1 := p.componentToEntityMap.getD index1 0
  let entityID2 := p.componentToEntityMap.getD index2 0
  { p with
    componentToEntityMap := (p.componentToEntityMap.set index1 entityID2).set index2 entityID1,
    entityToComponentMap :=
      assocSet (assocSet p.entityToComponentMap entityID1 index2) entityID2 index1 }

/-- ComponentPool::IsSorted. -/
def IsSorted (p : ComponentPool α) : Bool := p.sorted

/-- ComponentPool::SetSorted. -/
def SetSorted (p : ComponentPool α) (b : Bool) : ComponentPool α := { p with sorted := b }

/-- Spec invariants (P1)-(P2) on the index maps: the counter agrees with the
lengths of the live buffer and of both maps, and the sparse map inverts the
dense map on every live slot. -/
def MapsConsistent (p : ComponentPool α) : Prop :=
  p.components.length = p.count ∧
  p.componentToEntityMap.length = p.count ∧
  p.entityToComponentMap.length = p.count ∧
  ∀ i, i < p.count → assocFind p.entityToComponentMap (p.componentToEntityMap.getD i 0) = some i

instance (p : ComponentPool α) : Decidable (MapsConsistent p) := by
  unfold MapsConsistent
  infer_instance

/-- Full pool well-formedness: (P1)-(P3) — additionally every sparse binding
points at a live slot holding its entity. -/
def PoolWF (p : ComponentPool α) : Prop :=
  MapsConsistent p ∧
  ∀ q ∈ p.entityToComponentMap, q.2 < p.count ∧ p.componentToEntityMap.getD q.2 0 = q.1

instance (p : ComponentPool α) : Decidable (PoolWF p) := by
  unfold PoolWF
  infer_instance

end ComponentPool

/-! ### World::Sort, World::partition, World::quicksort (microECS/core/World.h)

The sort works on one pool; `int` indices are modelled as `Int`.  Reads of
`arr[k]` become `bufGetI` (in every reachable call the index is a live slot). -/

open ComponentPool

variable {α : Type}

/-- Read `arr[k]` from the live buffer of a pool (`T* arr` points at
`m_pComponents`). -/
def bufGetI [Inhabited α] (l : List α) (k : Int) : α := l.getD k.toNat default

/-- One combined swap step of `World::partition`:
`pool.SwapMaps(a, b); std::swap(arr[a], arr[b]);`. -/
def partSwap [Inhabited α] (p : ComponentPool α) (a b : Int) : ComponentPool α :=
  let q := p.SwapMaps a.toNat b.toNat
  let x := bufGetI q.components a
  let y := bufGetI q.components b
  { q with components := (q.components.set a.toNat y).set b.toNat x }

/-- The `for (j = low; j <= high - 1; j++)` loop body of World::partition,
threading the running state and the counter `i`. -/
def partLoop [Inhabited α] (cmp : α → α → Bool) (pivot : α) (high j i : Int)
    (p : ComponentPool α) : ComponentPool α × Int :=
  if j ≤ high - 1 then
    if cmp (bufGetI p.components j) pivot then
      partLoop cmp pivot high (j + 1) (i + 1) (partSwap p (i + 1) j)
    else
      partLoop cmp pivot high (j + 1) i p
  else
    (p, i)
termination_by (high - j).toNat
decreasing_by
  all_goals omega

/-- World::partition (Lomuto, pivot = `arr[high]`): returns the new pool state
and the pivot's final index `i + 1`. -/
def partition [Inhabited α] (cmp : α → α → Bool) (p : ComponentPool α) (low high : Int) :
    ComponentPool α × Int :=
  let pivot := bufGetI p.components high
  let r := partLoop cmp pivot high low (low - 1) p
  (partSwap r.1 (r.2 + 1) high, r.2 + 1)

theorem partLoop_snd_ge [Inhabited α] (cmp : α → α → Bool) (pivot : α) (high : Int) :
    ∀ (n : Nat) (j i : Int) (p : ComponentPool α), (high - j).toNat = n →
      i ≤ (partLoop cmp pivot high j i p).2 := by
  intro n
  induction n with
  | zero =>
    intro j i p hn
    rw [partLoop]
    have : ¬ j ≤ high - 1 := by omega
    simp [this]
  | succ m ih =>
    intro j i p hn
    rw [partLoop]
    by_cases hj : j ≤ high - 1
    · have hrec : (high - (j + 1)).toNat = m := by omega
      by_cases hc : cmp (bufGetI p.components j) pivot
      · rw [if_pos hj, if_pos hc]
        have := ih (j + 1) (i + 1) (partSwap p (i + 1) j) hrec
        omega
      · rw [if_pos hj, if_neg hc]
        exact ih (j + 1) i p hrec
    · simp [hj]

theorem partLoop_snd_lt [Inhabited α] (cmp : α → α → Bool) (pivot : α) (high : Int) :
    ∀ (n : Nat) (j i : Int) (p : ComponentPool α), (high - j).toNat = n → i < j →
      (partLoop cmp pivot high j i p).2 < max j high := by
  intro n
  induction n with
  | zero =>
    intro j i p hn hij
    rw [partLoop]
    have : ¬ j ≤ high - 1 := by omega
    simp only [this, if_false]
    omega
  | succ m ih =>
    intro j i p hn hij
    rw [partLoop]
    by_cases hj : j ≤ high - 1
    · have hrec : (high - (j + 1)).toNat = m := by omega
      by_cases hc : cmp (bufGetI p.components j) pivot
      · rw [if_pos hj, if_pos hc]
        have := ih (j + 1) (i + 1) (partSwap p (i + 1) j) hrec (by omega)
        omega
      · rw [if_pos hj, if_neg hc]
        have := ih (j + 1) i p hrec (by omega)
        omega
    · rw [if_neg hj]
      simp only
      omega

/-- Bounds on the index returned by `partition`, needed for the termination of
`quicksort`: when `low < high` the pivot index lies in `[low, high]`. -/
theorem partition_snd_bounds [Inhabited α] (cmp : α → α → Bool) (p : ComponentPool α)
    (low high : Int) (h : low < high) :
    low ≤ (partition cmp p low high).2 ∧ (partition cmp p low high).2 ≤ high := by
  unfold partition
  simp only
  constructor
  · have := partLoop_snd_ge cmp (bufGetI p.components high) high (high - low).toNat
      low (low - 1) p (by omega)
    omega
  · have := partLoop_snd_lt cmp (bufGetI p.components high) high (high - low).toNat
      low (low - 1) p (by omega) (by omega)
    omega

/-- World::quicksort. -/
def quicksort [Inhabited α] (cmp : α → α → Bool) (p : ComponentPool α) (low high : Int) :
    ComponentPool α :=
  if h : low < high then
    let r := partition cmp p low high
    quicksort cmp (quicksort cmp r.1 low (r.2 - 1)) (r.2 + 1) high
  else
    p
termination_by (high - low + 1).toNat
decreasing_by
  · have := partition_snd_bounds cmp p low high h
    omega
  · have := partition_snd_bounds cmp p low high h
    omega

/-- World::Sort, acting on the pool fetched for the component type: skip when
the sorted flag is set or fewer than two elements live, otherwise quicksort
the whole live range and set the flag. -/
def sortPool [Inhabited α] (cmp : α → α → Bool) (p : ComponentPool α) : ComponentPool α :=
  if p.IsSorted || p.Size < 2 then p
  else (quicksort cmp p 0 ((p.count : Int) - 1)).SetSorted true

/-! ### Properties of the combined swap step -/

theorem partSwap_fields [Inhabited α] (p : ComponentPool α) (a b : Int) :
    (partSwap p a b).count = p.count ∧ (partSwap p a b).sorted = p.sorted ∧
    (partSwap p a b).poolSize = p.poolSize ∧
    (partSwap p a b).components.length = p.components.length := by
  simp [partSwap, SwapMaps]

theorem partSwap_components_getD [Inhabited α] (p : ComponentPool α) (a b : Int) (m : Nat)
    (ha : a.toNat < p.components.length) (hb : b.toNat < p.components.length) :
    (partSwap p a b).components.getD m default =
      if m = b.toNat then p.components.getD a.toNat default
      else if m = a.toNat then p.components.getD b.toNat default
      else p.components.getD m default := by
  have hq : (p.SwapMaps a.toNat b.toNat).components = p.components := rfl
  by_cases hmb : m = b.toNat
  · subst hmb
    simp only [partSwap, hq, if_pos rfl]
    rw [getD_set_self _ _ _ _ (by simpa using hb)]
    rfl
  · by_cases hma : m = a.toNat
    · subst hma
      simp only [partSwap, hq, if_neg hmb, if_pos rfl]
      rw [getD_set_ne _ _ _ _ _ (fun hc => hmb hc.symm), getD_set_self _ _ _ _ ha]
      rfl
    · simp only [partSwap, hq, if_neg hmb, if_neg hma]
      rw [getD_set_ne _ _ _ _ _ (fun hc => hmb hc.symm),
        getD_set_ne _ _ _ _ _ (fun hc => hma hc.symm)]

theorem partSwap_pred [Inhabited α] (p : ComponentPool α) (a b : Int) (lo hi : Int)
    (P : α → Prop)
    (ha : a.toNat < p.components.length) (hb : b.toNat < p.components.length)
    (halo : lo ≤ a) (hahi : a ≤ hi) (hblo : lo ≤ b) (hbhi : b ≤ hi)
    (h0 : 0 ≤ lo)
    (hP : ∀ m : Nat, lo ≤ (m : Int) → (m : Int) ≤ hi → P (p.components.getD m default)) :
    ∀ m : Nat, lo ≤ (m : Int) → (m : Int) ≤ hi →
      P ((partSwap p a b).components.getD m default) := by
  intro m hm1 hm2
  rw [partSwap_components_getD p a b m ha hb]
  by_cases hmb : m = b.toNat
  · rw [if_pos hmb]
    exact hP a.toNat (by omega) (by omega)
  · by_cases hma : m = a.toNat
    · rw [if_neg hmb, if_pos hma]
      exact hP b.toNat (by omega) (by omega)
    · rw [if_neg hmb, if_neg hma]
      exact hP m hm1 hm2

theorem partSwap_mapsConsistent [Inhabited α] (p : ComponentPool α) (a b : Int)
    (ha : a.toNat < p.count) (hb : b.toNat < p.count) (hwf : MapsConsistent p) :
    MapsConsistent (partSwap p a b) := by
  obtain ⟨hlc, hld, hls, hinv⟩ := hwf
  set i1 := a.toNat
  set i2 := b.toNat
  set e1 := p.componentToEntityMap.getD i1 0 with he1
  set e2 := p.componentToEntityMap.getD i2 0 with he2
  have hf1 : assocFind p.entityToComponentMap e1 = some i1 := hinv i1 ha
  have hf2 : assocFind p.entityToComponentMap e2 = some i2 := hinv i2 hb
  have hcomp : (partSwap p a b).components.length = p.components.length :=
    (partSwap_fields p a b).2.2.2
  have hcount : (partSwap p a b).count = p.count := (partSwap_fields p a b).1
  have hdense : (partSwap p a b).componentToEntityMap =
      (p.componentToEntityMap.set i1 e2).set i2 e1 := rfl
  have hsparse : (partSwap p a b).entityToComponentMap =
      assocSet (assocSet p.entityToComponentMap e1 i2) e2 i1 := rfl
  refine ⟨by rw [hcomp, hcount, hlc], by rw [hdense, hcount]; simpa using hld,
    ?_, ?_⟩
  · rw [hsparse, hcount]
    rw [assocSet_length_of_find_isSome]
    · rw [assocSet_length_of_find_isSome _ _ _ (by rw [hf1]; rfl)]
      exact hls
    · rw [assocFind_assocSet]
      by_cases h12 : e1 = e2 <;> simp [h12, hf2]
  · intro k hk
    rw [hcount] at hk
    have hfind : ∀ x, assocFind (partSwap p a b).entityToComponentMap x =
        if e2 = x then some i1 else if e1 = x then some i2
        else assocFind p.entityToComponentMap x := by
      intro x
      rw [hsparse, assocFind_assocSet, assocFind_assocSet]
    by_cases hk2 : k = i2
    · subst hk2
      rw [hdense, getD_set_self _ _ _ _ (by rw [List.length_set]; omega), hfind]
      by_cases h21 : e2 = e1
      · have hf2' := hf2
        rw [h21, hf1] at hf2'
        have hii : i1 = i2 := by injection hf2'
        rw [if_pos h21, hii]
      · rw [if_neg h21, if_pos rfl]
    · by_cases hk1 : k = i1
      · subst hk1
        rw [hdense, getD_set_ne _ _ _ _ _ (fun hc => hk2 hc.symm),
          getD_set_self _ _ _ _ (by omega), hfind, if_pos rfl]
      · rw [hdense, getD_set_ne _ _ _ _ _ (fun hc => hk2 hc.symm),
          getD_set_ne _ _ _ _ _ (fun hc => hk1 hc.symm), hfind]
        have hne2 : ¬ e2 = p.componentToEntityMap.getD k 0 := by
          intro hc
          have := hinv k hk
          rw [← hc, hf2] at this
          exact hk2 (by injection this with h; exact h.symm)
        have hne1 : ¬ e1 = p.componentToEntityMap.getD k 0 := by
          intro hc
          have := hinv k hk
          rw [← hc, hf1] at this
          exact hk1 (by injection this with h; exact h.symm)
        rw [if_neg hne2, if_neg hne1]
        exact hinv k hk

theorem bufGetI_eq [Inhabited α] (l : List α) (k : Int) :
    bufGetI l k = l.getD k.toNat default := rfl

/-- Full loop invariant of the Lomuto partition scan: the maps stay
consistent, the scalar fields are untouched, slots outside `[lo, high)` keep
their values, the slots up to the returned `i` compare below the pivot and
the scanned slots above it do not, and any pointwise property of the segment
`[lo, high]` survives. -/
theorem partLoop_spec [Inhabited α] (cmp : α → α → Bool) (pivot : α) (high lo : Int)
    (hlo : 0 ≤ lo) :
    ∀ (n : Nat) (j i : Int) (p : ComponentPool α), (high - j).toNat = n →
      lo - 1 ≤ i → i < j → j ≤ high →
      MapsConsistent p → high < (p.count : Int) →
      (∀ k : Int, lo ≤ k → k ≤ i → cmp (bufGetI p.components k) pivot = true) →
      (∀ k : Int, i < k → k < j → cmp (bufGetI p.components k) pivot = false) →
      MapsConsistent (partLoop cmp pivot high j i p).1 ∧
      (partLoop cmp pivot high j i p).1.count = p.count ∧
      (partLoop cmp pivot high j i p).1.sorted = p.sorted ∧
      (∀ m : Nat, ((m : Int) < lo ∨ high ≤ (m : Int)) →
        (partLoop cmp pivot high j i p).1.components.getD m default =
          p.components.getD m default) ∧
      (∀ k : Int, lo ≤ k → k ≤ (partLoop cmp pivot high j i p).2 →
        cmp (bufGetI (partLoop cmp pivot high j i p).1.components k) pivot = true) ∧
      (∀ k : Int, (partLoop cmp pivot high j i p).2 < k → k < high →
        cmp (bufGetI (partLoop cmp pivot high j i p).1.components k) pivot = false) ∧
      (∀ P : α → Prop,
        (∀ m : Nat, lo ≤ (m : Int) → (m : Int) ≤ high → P (p.components.getD m default)) →
        ∀ m : Nat, lo ≤ (m : Int) → (m : Int) ≤ high →
          P ((partLoop cmp pivot high j i p).1.components.getD m default)) := by
  intro n
  induction n with
  | zero =>
    intro j i p hn hloi hij hjh hwf hhc hA hB
    have hj : ¬ j ≤ high - 1 := by omega
    have hjh' : j = high := by omega
    rw [partLoop, if_neg hj]
    refine ⟨hwf, rfl, rfl, fun m _ => rfl, hA, ?_, fun P hP => hP⟩
    intro k hk1 hk2
    exact hB k hk1 (by omega)
  | succ n ih =>
    intro j i p hn hloi hij hjh hwf hhc hA hB
    have hj : j ≤ high - 1 := by omega
    have hlen : p.components.length = p.count := hwf.1
    rw [partLoop, if_pos hj]
    by_cases hc : cmp (bufGetI p.components j) pivot = true
    · rw [if_pos hc]
      have ha1 : (i + 1).toNat < p.components.length := by omega
      have hb1 : j.toNat < p.components.length := by omega
      have ha1' : (i + 1).toNat < p.count := by omega
      have hb1' : j.toNat < p.count := by omega
      have hwf' := partSwap_mapsConsistent p (i + 1) j ha1' hb1' hwf
      obtain ⟨hcnt', hsort', hpool', hlen'⟩ := partSwap_fields p (i + 1) j
      have hA' : ∀ k : Int, lo ≤ k → k ≤ i + 1 →
          cmp (bufGetI (partSwap p (i + 1) j).components k) pivot = true := by
        intro k hk1 hk2
        rw [bufGetI_eq, partSwap_components_getD p (i + 1) j k.toNat ha1 hb1]
        by_cases hkb : k.toNat = j.toNat
        · rw [if_pos hkb]
          have heq : (i + 1).toNat = j.toNat := by omega
          rw [heq]
          exact hc
        · rw [if_neg hkb]
          by_cases hka : k.toNat = (i + 1).toNat
          · rw [if_pos hka]
            exact hc
          · rw [if_neg hka]
            exact hA k hk1 (by omega)
      have hB' : ∀ k : Int, i + 1 < k → k < j + 1 →
          cmp (bufGetI (partSwap p (i + 1) j).components k) pivot = false := by
        intro k hk1 hk2
        rw [bufGetI_eq, partSwap_components_getD p (i + 1) j k.toNat ha1 hb1]
        by_cases hkb : k.toNat = j.toNat
        · rw [if_pos hkb]
          exact hB (i + 1) (by omega) (by omega)
        · rw [if_neg hkb]
          have hka : ¬ k.toNat = (i + 1).toNat := by omega
          rw [if_neg hka]
          exact hB k (by omega) (by omega)
      obtain ⟨w1, w2, w3, w4, w5, w6, w7⟩ :=
        ih (j + 1) (i + 1) (partSwap p (i + 1) j) (by omega) (by omega) (by omega)
          (by omega) hwf' (by omega) hA' hB'
      refine ⟨w1, w2.trans hcnt', w3.trans hsort', ?_, w5, w6, ?_⟩
      · intro m hm
        rw [w4 m hm, partSwap_components_getD p (i + 1) j m ha1 hb1]
        have hmb : ¬ m = j.toNat := by omega
        have hma : ¬ m = (i + 1).toNat := by omega
        rw [if_neg hmb, if_neg hma]
      · intro P hP
        exact w7 P (partSwap_pred p (i + 1) j lo high P ha1 hb1 (by omega) (by omega)
          (by omega) (by omega) hlo hP)
    · rw [if_neg hc]
      have hcf : cmp (bufGetI p.components j) pivot = false := by
        revert hc
        cases cmp (bufGetI p.components j) pivot <;> simp
      have hB' : ∀ k : Int, i < k → k < j + 1 →
          cmp (bufGetI p.components k) pivot = false := by
        intro k hk1 hk2
        by_cases hkj : k = j
        · rw [hkj]
          exact hcf
        · exact hB k hk1 (by omega)
      exact ih (j + 1) i p (by omega) hloi (by omega) (by omega) hwf hhc hA hB'

/-- Postcondition of World::partition on a consistent pool: maps stay
consistent, the returned index `pi` is in `[low, high]` and holds the original
pivot value `arr[high]`, every slot of `[low, pi)` compares below the pivot,
no slot of `(pi, high]` does, slots outside `[low, high]` are untouched, and
pointwise properties of the segment survive. -/
theorem partition_spec [Inhabited α] (cmp : α → α → Bool) (p : ComponentPool α)
    (low high : Int) (h0 : 0 ≤ low) (hlh : low < high)
    (hwf : MapsConsistent p) (hhc : high < (p.count : Int)) :
    MapsConsistent (partition cmp p low high).1 ∧
    (partition cmp p low high).1.count = p.count ∧
    (partition cmp p low high).1.sorted = p.sorted ∧
    low ≤ (partition cmp p low high).2 ∧ (partition cmp p low high).2 ≤ high ∧
    (∀ m : Nat, ((m : Int) < low ∨ high < (m : Int)) →
      (partition cmp p low high).1.components.getD m default =
        p.components.getD m default) ∧
    bufGetI (partition cmp p low high).1.components (partition cmp p low high).2 =
      bufGetI p.components high ∧
    (∀ k : Int, low ≤ k → k < (partition cmp p low high).2 →
      cmp (bufGetI (partition cmp p low high).1.components k)
        (bufGetI p.components high) = true) ∧
    (∀ k : Int, (partition cmp p low high).2 < k → k ≤ high →
      cmp (bufGetI (partition cmp p low high).1.components k)
        (bufGetI p.components high) = false) ∧
    (∀ P : α → Prop,
      (∀ m : Nat, low ≤ (m : Int) → (m : Int) ≤ high → P (p.components.getD m default)) →
      ∀ m : Nat, low ≤ (m : Int) → (m : Int) ≤ high →
        P ((partition cmp p low high).1.components.getD m default)) := by
  obtain ⟨w1, w2, w3, w4, w5, w6, w7⟩ :=
    partLoop_spec cmp (bufGetI p.components high) high low h0 (high - low).toNat low
      (low - 1) p rfl (by omega) (by omega) (by omega) hwf hhc
      (fun k hk1 hk2 => absurd (hk1.trans hk2) (by omega))
      (fun k hk1 hk2 => absurd (lt_of_le_of_lt (by omega : low - 1 ≤ k) hk2) (by omega))
  have hge : low - 1 ≤ (partLoop cmp (bufGetI p.components high) high low (low - 1) p).2 :=
    partLoop_snd_ge cmp (bufGetI p.components high) high (high - low).toNat low (low - 1) p rfl
  have hlt : (partLoop cmp (bufGetI p.components high) high low (low - 1) p).2 < max low high :=
    partLoop_snd_lt cmp (bufGetI p.components high) high (high - low).toNat low (low - 1) p
      rfl (by omega)
  set r := partLoop cmp (bufGetI p.components high) high low (low - 1) p with hr
  have hlt' : r.2 < high := by omega
  have hpart1 : (partition cmp p low high).1 = partSwap r.1 (r.2 + 1) high := rfl
  have hpart2 : (partition cmp p low high).2 = r.2 + 1 := rfl
  have hrlen : r.1.components.length = p.count := by
    rw [w1.1, w2]
  have hpiN : (r.2 + 1).toNat < r.1.components.length := by omega
  have hhiN : high.toNat < r.1.components.length := by omega
  have hpiC : (r.2 + 1).toNat < r.1.count := by omega
  have hhiC : high.toNat < r.1.count := by omega
  obtain ⟨hcnt', hsort', hpool', hlen'⟩ := partSwap_fields r.1 (r.2 + 1) high
  refine ⟨?_, ?_, ?_, ?_, ?_, ?_, ?_, ?_, ?_, ?_⟩
  · rw [hpart1]
    exact partSwap_mapsConsistent r.1 (r.2 + 1) high hpiC hhiC w1
  · rw [hpart1, hcnt', w2]
  · rw [hpart1, hsort', w3]
  · rw [hpart2]
    omega
  · rw [hpart2]
    omega
  · intro m hm
    rw [hpart1, partSwap_components_getD r.1 (r.2 + 1) high m hpiN hhiN,
      if_neg (by omega : ¬ m = high.toNat), if_neg (by omega : ¬ m = (r.2 + 1).toNat)]
    exact w4 m (by omega)
  · rw [hpart1, hpart2, bufGetI_eq,
      partSwap_components_getD r.1 (r.2 + 1) high (r.2 + 1).toNat hpiN hhiN]
    by_cases hpe : (r.2 + 1).toNat = high.toNat
    · rw [if_pos hpe, hpe]
      rw [w4 high.toNat (by omega), bufGetI_eq]
    · rw [if_neg hpe, if_pos rfl]
      rw [w4 high.toNat (by omega), bufGetI_eq]
  · intro k hk1 hk2
    rw [hpart2] at hk2
    rw [hpart1, bufGetI_eq,
      partSwap_components_getD r.1 (r.2 + 1) high k.toNat hpiN hhiN,
      if_neg (by omega : ¬ k.toNat = high.toNat),
      if_neg (by omega : ¬ k.toNat = (r.2 + 1).toNat)]
    exact w5 k hk1 (by omega)
  · intro k hk1 hk2
    rw [hpart2] at hk1
    rw [hpart1, bufGetI_eq,
      partSwap_components_getD r.1 (r.2 + 1) high k.toNat hpiN hhiN]
    by_cases hke : k.toNat = high.toNat
    · rw [if_pos hke]
      have := w6 (r.2 + 1) (by omega) (by omega)
      rw [bufGetI_eq] at this
      exact this
    · rw [if_neg hke, if_neg (by omega : ¬ k.toNat = (r.2 + 1).toNat)]
      have := w6 k (by omega) (by omega)
      rw [bufGetI_eq] at this
      exact this
  · intro P hP
    rw [hpart1]
    exact partSwap_pred r.1 (r.2 + 1) high low high P hpiN hhiN (by omega) (by omega)
      (by omega) (by omega) h0 (w7 P hP)

theorem quicksort_eq [Inhabited α] (cmp : α → α → Bool) (p : ComponentPool α)
    (low high : Int) :
    quicksort cmp p low high =
      if low < high then
        quicksort cmp
          (quicksort cmp (partition cmp p low high).1 low ((partition cmp p low high).2 - 1))
          ((partition cmp p low high).2 + 1) high
      else p := by
  rw [quicksort]
  by_cases h : low < high
  · rw [dif_pos h, if_pos h]
  · rw [dif_neg h, if_neg h]

/-- Main inductive lemma for World::quicksort on a consistent pool: the maps
stay consistent, the scalar fields are untouched, slots outside `[low, high]`
keep their values, pointwise properties of the segment survive, and (for an
asymmetric comparator) adjacent slots of the sorted range are non-decreasing. -/
theorem quicksort_spec [Inhabited α] (cmp : α → α → Bool)
    (hasym : ∀ a b : α, cmp a b = true → cmp b a = false) :
    ∀ (n : Nat) (p : ComponentPool α) (low high : Int),
      (high - low + 1).toNat ≤ n → 0 ≤ low → high < (p.count : Int) → MapsConsistent p →
      MapsConsistent (quicksort cmp p low high) ∧
      (quicksort cmp p low high).count = p.count ∧
      (quicksort cmp p low high).sorted = p.sorted ∧
      (∀ m : Nat, ((m : Int) < low ∨ high < (m : Int)) →
        (quicksort cmp p low high).components.getD m default =
          p.components.getD m default) ∧
      (∀ P : α → Prop,
        (∀ m : Nat, low ≤ (m : Int) → (m : Int) ≤ high → P (p.components.getD m default)) →
        ∀ m : Nat, low ≤ (m : Int) → (m : Int) ≤ high →
          P ((quicksort cmp p low high).components.getD m default)) ∧
      (∀ k : Int, low ≤ k → k < high →
        cmp (bufGetI (quicksort cmp p low high).components (k + 1))
          (bufGetI (quicksort cmp p low high).components k) = false) := by
  intro n
  induction n with
  | zero =>
    intro p low high hn h0 hhc hwf
    have h : ¬ low < high := by omega
    rw [quicksort_eq, if_neg h]
    exact ⟨hwf, rfl, rfl, fun m _ => rfl, fun P hP => hP,
      fun k hk1 hk2 => absurd (lt_of_le_of_lt hk1 hk2) h⟩
  | succ n ih =>
    intro p low high hn h0 hhc hwf
    by_cases h : low < high
    · rw [quicksort_eq, if_pos h]
      obtain ⟨q1, q2, q3, q4, q5, q6, q7, q8, q9, q10⟩ :=
        partition_spec cmp p low high h0 h hwf hhc
      set pr := partition cmp p low high with hpr
      have hprc : pr.1.count = p.count := q2
      obtain ⟨a1, a2, a3, a4, a5, a6⟩ :=
        ih pr.1 low (pr.2 - 1) (by omega) h0 (by omega) q1
      set s1 := quicksort cmp pr.1 low (pr.2 - 1) with hs1
      have hs1c : s1.count = p.count := a2.trans hprc
      obtain ⟨b1, b2, b3, b4, b5, b6⟩ :=
        ih s1 (pr.2 + 1) high (by omega) (by omega) (by omega) a1
      set s2 := quicksort cmp s1 (pr.2 + 1) high with hs2
      have hs2c : s2.count = p.count := b2.trans hs1c
      -- the pivot value sits at index pr.2 in the final state
      have hs1_at_pi : s1.components.getD pr.2.toNat default =
          pr.1.components.getD pr.2.toNat default :=
        a4 pr.2.toNat (Or.inr (by omega))
      have hs2_at_pi : s2.components.getD pr.2.toNat default =
          bufGetI p.components high := by
        rw [b4 pr.2.toNat (Or.inl (by omega)), hs1_at_pi]
        rw [bufGetI_eq] at q7
        exact q7
      -- slots left of the pivot still compare below the pivot value
      have hA2 : ∀ k : Int, low ≤ k → k < pr.2 →
          cmp (s2.components.getD k.toNat default) (bufGetI p.components high) = true := by
        intro k hk1 hk2
        rw [b4 k.toNat (Or.inl (by omega))]
        have hA1 : ∀ m : Nat, low ≤ (m : Int) → (m : Int) ≤ pr.2 - 1 →
            cmp (s1.components.getD m default) (bufGetI p.components high) = true := by
          refine a5 (fun v => cmp v (bufGetI p.components high) = true) ?_
          intro m hm1 hm2
          have := q8 (m : Int) hm1 (by omega)
          rw [bufGetI_eq] at this
          simpa using this
        have := hA1 k.toNat (by omega) (by omega)
        exact this
      -- slots right of the pivot still do not compare below the pivot value
      have hB2 : ∀ k : Int, pr.2 < k → k ≤ high →
          cmp (s2.components.getD k.toNat default) (bufGetI p.components high) = false := by
        intro k hk1 hk2
        have hB1 : ∀ m : Nat, pr.2 + 1 ≤ (m : Int) → (m : Int) ≤ high →
            cmp (s1.components.getD m default) (bufGetI p.components high) = false := by
          intro m hm1 hm2
          rw [a4 m (Or.inr (by omega))]
          have := q9 (m : Int) (by omega) hm2
          rw [bufGetI_eq] at this
          simpa using this
        have := b5 (fun v => cmp v (bufGetI p.components high) = false) hB1 k.toNat
          (by omega) (by omega)
        exact this
      refine ⟨b1, hs2c, b3.trans (a3.trans q3), ?_, ?_, ?_⟩
      · intro m hm
        rw [b4 m (by omega), a4 m (by omega), q6 m hm]
      · intro P hP m hm1 hm2
        have hPpr : ∀ m' : Nat, low ≤ (m' : Int) → (m' : Int) ≤ high →
            P (pr.1.components.getD m' default) := q10 P hP
        have hPs1 : ∀ m' : Nat, low ≤ (m' : Int) → (m' : Int) ≤ high →
            P (s1.components.getD m' default) := by
          intro m' h1 h2
          by_cases hm' : (m' : Int) ≤ pr.2 - 1
          · exact a5 P (fun x hx1 hx2 => hPpr x hx1 (by omega)) m' h1 hm'
          · rw [a4 m' (Or.inr (by omega))]
            exact hPpr m' h1 h2
        by_cases hm' : pr.2 + 1 ≤ (m : Int)
        · exact b5 P (fun x hx1 hx2 => hPs1 x (by omega) hx2) m hm' hm2
        · rw [b4 m (Or.inl (by omega))]
          exact hPs1 m hm1 hm2
      · intro k hk1 hk2
        rw [bufGetI_eq, bufGetI_eq]
        rcases lt_trichotomy k (pr.2 - 1) with hkc | hkc | hkc
        · -- both slots lie in the already-sorted left segment
          have h1 : s2.components.getD (k + 1).toNat default =
              s1.components.getD (k + 1).toNat default :=
            b4 (k + 1).toNat (Or.inl (by omega))
          have h2 : s2.components.getD k.toNat default =
              s1.components.getD k.toNat default :=
            b4 k.toNat (Or.inl (by omega))
          rw [h1, h2]
          have := a6 k hk1 (by omega)
          rw [bufGetI_eq, bufGetI_eq] at this
          exact this
        · -- boundary: slot pr.2 - 1 against the pivot at pr.2
          have hkp : k + 1 = pr.2 := by omega
          have hval : s2.components.getD (k + 1).toNat default =
              bufGetI p.components high := by
            rw [show (k + 1).toNat = pr.2.toNat by omega]
            exact hs2_at_pi
          rw [hval]
          exact hasym _ _ (hA2 k hk1 (by omega))
        · rcases lt_trichotomy k pr.2 with hkc2 | hkc2 | hkc2
          · omega
          · -- boundary: the pivot at pr.2 against slot pr.2 + 1
            have hval : s2.components.getD k.toNat default =
                bufGetI p.components high := by
              rw [show k.toNat = pr.2.toNat by omega]
              exact hs2_at_pi
            rw [hval]
            exact hB2 (k + 1) (by omega) (by omega)
          · -- both slots lie in the sorted right segment
            have := b6 k (by omega) hk2
            rw [bufGetI_eq, bufGetI_eq] at this
            exact this
    · rw [quicksort_eq, if_neg h]
      exact ⟨hwf, rfl, rfl, fun m _ => rfl, fun P hP => hP,
        fun k hk1 hk2 => absurd (lt_of_le_of_lt hk1 hk2) h⟩

/-- Claim C1: for every component pool with at least two elements and the
sorted flag unset, and every caller-supplied strict total order `cmp`
(irreflexive and transitive), after World::Sort(cmp) the dense buffer is
non-decreasing under `cmp` (no `cmp (buffer[i+1]) (buffer[i])`), and the two
index maps remain mutually consistent: `slot_of[entity_of[i]] = i` for every
live slot and `count = len(entity_of) = len(slot_of)`. -/
theorem sortPool_sorts_and_keeps_maps_consistent [Inhabited α]
    (p : ComponentPool α) (cmp : α → α → Bool)
    (hwf : MapsConsistent p) (h2 : 2 ≤ p.count) (hs : p.sorted = false)
    (hirr : ∀ a : α, cmp a a = false)
    (htrans : ∀ a b c : α, cmp a b = true → cmp b c = true → cmp a c = true) :
    (∀ i : Nat, i + 1 < (sortPool cmp p).count →
      cmp ((sortPool cmp p).components.getD (i + 1) default)
        ((sortPool cmp p).components.getD i default) = false) ∧
    (∀ i : Nat, i < (sortPool cmp p).count →
      assocFind (sortPool cmp p).entityToComponentMap
        ((sortPool cmp p).componentToEntityMap.getD i 0) = some i) ∧
    (sortPool cmp p).count = (sortPool cmp p).componentToEntityMap.length ∧
    (sortPool cmp p).count = (sortPool cmp p).entityToComponentMap.length := by
  have hasym : ∀ a b : α, cmp a b = true → cmp b a = false := by
    intro a b hab
    cases hba : cmp b a
    · rfl
    · exact absurd (htrans a b a hab hba) (by rw [hirr a]; exact fun hc => nomatch hc)
  obtain ⟨w1, w2, w3, w4, w5, w6⟩ :=
    quicksort_spec cmp hasym ((p.count : Int) - 1 - 0 + 1).toNat p 0 ((p.count : Int) - 1)
      (le_refl _) (le_refl 0) (by omega) hwf
  have hq : sortPool cmp p =
      (quicksort cmp p 0 ((p.count : Int) - 1)).SetSorted true := by
    unfold sortPool
    split
    · next hcond =>
      exfalso
      simp [IsSorted, Size, hs] at hcond
      omega
    · rfl
  have hfields : (sortPool cmp p).components =
        (quicksort cmp p 0 ((p.count : Int) - 1)).components ∧
      (sortPool cmp p).count = (quicksort cmp p 0 ((p.count : Int) - 1)).count ∧
      (sortPool cmp p).entityToComponentMap =
        (quicksort cmp p 0 ((p.count : Int) - 1)).entityToComponentMap ∧
      (sortPool cmp p).componentToEntityMap =
        (quicksort cmp p 0 ((p.count : Int) - 1)).componentToEntityMap := by
    rw [hq]
    exact ⟨rfl, rfl, rfl, rfl⟩
  obtain ⟨hfc, hfn, hfs, hfd⟩ := hfields
  refine ⟨?_, ?_, ?_, ?_⟩
  · intro i hi
    rw [hfn, w2] at hi
    have := w6 (i : Int) (by omega) (by omega)
    rw [bufGetI_eq, bufGetI_eq] at this
    rw [show ((i : Int) + 1).toNat = i + 1 by omega, show (i : Int).toNat = i by omega] at this
    rw [hfc]
    exact this
  · intro i hi
    rw [hfn, w2] at hi
    rw [hfs, hfd]
    exact w1.2.2.2 i (by omega)
  · rw [hfn, hfd, w1.2.1, w2]
  · rw [hfn, hfs, w1.2.2.1, w2]

/-- Fixture comparator for witnesses: the strict order `false < true`. -/
def cmpBool : Bool → Bool → Bool := fun a b => !a && b

/-- Fixture pool for witnesses: two live elements `[true, false]` held by
entities 5 and 7, flag unset. -/
def demoPool : ComponentPool Bool :=
  { components := [true, false], count := 2, poolSize := 32,
    entityToComponentMap := [(5, 0), (7, 1)], componentToEntityMap := [5, 7],
    sorted := false }

theorem sortPool_sorts_and_keeps_maps_consistent_witness :
    MapsConsistent demoPool ∧ 2 ≤ demoPool.count ∧ demoPool.sorted = false ∧
    ((∀ i : Nat, i + 1 < (sortPool cmpBool demoPool).count →
      cmpBool ((sortPool cmpBool demoPool).components.getD (i + 1) default)
        ((sortPool cmpBool demoPool).components.getD i default) = false) ∧
    (∀ i : Nat, i < (sortPool cmpBool demoPool).count →
      assocFind (sortPool cmpBool demoPool).entityToComponentMap
        ((sortPool cmpBool demoPool).componentToEntityMap.getD i 0) = some i) ∧
    (sortPool cmpBool demoPool).count =
      (sortPool cmpBool demoPool).componentToEntityMap.length ∧
    (sortPool cmpBool demoPool).count =
      (sortPool cmpBool demoPool).entityToComponentMap.length) :=
  ⟨by decide, by decide, by decide,
    sortPool_sorts_and_keeps_maps_consistent demoPool cmpBool (by decide) (by decide)
      (by decide) (by decide) (by decide)⟩

/-- Claim C10: the recursive quicksort terminates because `partition` returns
an index `pi` with `low ≤ pi ≤ high` whenever `low < high`, so each recursive
call is on a strictly shorter range; `quicksort` is accordingly a total
function (defined by well-founded recursion on the range length). -/
theorem partition_index_in_range [Inhabited α] (cmp : α → α → Bool)
    (p : ComponentPool α) (low high : Int) (h : low < high) :
    low ≤ (partition cmp p low high).2 ∧ (partition cmp p low high).2 ≤ high :=
  partition_snd_bounds cmp p low high h

theorem partition_index_in_range_witness :
    (0 : Int) < 1 ∧
    ((0 : Int) ≤ (partition cmpBool demoPool 0 1).2 ∧
      (partition cmpBool demoPool 0 1).2 ≤ 1) :=
  ⟨by decide, partition_index_in_range cmpBool demoPool 0 1 (by decide)⟩

/-! ### Swap-remove (claim C2) -/

theorem get?_eq_some_getD {α : Type} (l : List α) (n : Nat) (d : α) (h : n < l.length) :
    l.get? n = some (l.getD n d) := by
  induction l generalizing n with
  | nil => simp at h
  | cons a t ih =>
    cases n with
    | zero => rfl
    | succ m =>
      rw [getD_cons_succ]
      exact ih m (by simpa using h)

/-- Shape of `RemoveComponent` when the removed slot is the last one: drop
the buffer tail, erase the binding, pop the dense tail. -/
theorem RemoveComponent_eq_last [Inhabited α] (p : ComponentPool α) (e : Nat) (s : Nat)
    (hfs : assocFind p.entityToComponentMap e = some s)
    (hld : p.componentToEntityMap.length = p.count)
    (hs : s = p.count - 1) :
    p.RemoveComponent e =
      { p with components := p.components.dropLast,
               count := p.count - 1,
               entityToComponentMap := assocErase p.entityToComponentMap e,
               componentToEntityMap := p.componentToEntityMap.dropLast } := by
  unfold ComponentPool.RemoveComponent ComponentPool.mapIndex
  rw [hfs]
  unfold ComponentPool.RemoveComponentFromPool
  simp only [hld, hs, ne_eq, not_not, not_true_eq_false, if_neg, ite_not]
  simp

/-- Shape of `RemoveComponent` when the removed slot is not the last one: the
last element and the last dense entry move into the removed slot, the moved
entity is rebound, then the binding of `e` is erased and the tails dropped. -/
theorem RemoveComponent_eq_not_last [Inhabited α] (p : ComponentPool α) (e : Nat) (s : Nat)
    (hfs : assocFind p.entityToComponentMap e = some s)
    (hlc : p.components.length = p.count)
    (hld : p.componentToEntityMap.length = p.count)
    (hcnt : 0 < p.count)
    (hs : s ≠ p.count - 1) :
    p.RemoveComponent e =
      { p with
        components := (p.components.set s (p.components.getD (p.count - 1) default)).dropLast,
        count := p.count - 1,
        entityToComponentMap :=
          assocErase
            (assocSet p.entityToComponentMap (p.componentToEntityMap.getD (p.count - 1) 0) s) e,
        componentToEntityMap :=
          (p.componentToEntityMap.set s (p.componentToEntityMap.getD (p.count - 1) 0)).dropLast } := by
  unfold ComponentPool.RemoveComponent ComponentPool.mapIndex
  rw [hfs]
  unfold ComponentPool.RemoveComponentFromPool
  dsimp only
  rw [if_pos hs, get?_eq_some_getD p.components (p.count - 1) default (by omega)]
  dsimp only
  rw [hld, if_pos hs]

/-- Claim C2: removing a present entity `e` from a pool makes `HasEntity e`
false, while every other previously present entity stays present with the
same component value (content preservation under swap-remove). -/
theorem removeComponent_preserves_others [Inhabited α] (p : ComponentPool α) (e : Nat)
    (hwf : PoolWF p) (he : p.HasEntity e = true) :
    (p.RemoveComponent e).HasEntity e = false ∧
    ∀ e' : Nat, e' ≠ e → p.HasEntity e' = true →
      (p.RemoveComponent e).HasEntity e' = true ∧
      (p.RemoveComponent e).GetComponent e' = p.GetComponent e' := by
  obtain ⟨⟨hlc, hld, hls, hinv⟩, hmem⟩ := hwf
  rw [ComponentPool.HasEntity] at he
  cases hfs : assocFind p.entityToComponentMap e with
  | none => rw [hfs] at he; exact absurd he (by simp)
  | some s =>
  obtain ⟨hsc, hsd⟩ := hmem (e, s) (assocFind_mem _ _ _ hfs)
  simp only at hsc hsd
  by_cases hslast : s = p.count - 1
  · rw [RemoveComponent_eq_last p e s hfs hld hslast]
    constructor
    · show (assocFind (assocErase p.entityToComponentMap e) e).isSome = false
      rw [assocFind_assocErase, if_pos rfl]
      rfl
    · intro e' hne hhe'
      rw [ComponentPool.HasEntity] at hhe'
      cases hfs' : assocFind p.entityToComponentMap e' with
      | none => rw [hfs'] at hhe'; exact absurd hhe' (by simp)
      | some s' =>
      obtain ⟨hsc', hsd'⟩ := hmem (e', s') (assocFind_mem _ _ _ hfs')
      simp only at hsc' hsd'
      have hss' : s' ≠ s := by
        intro hc
        exact hne (by rw [← hsd', hc, hsd])
      have hfind' : assocFind (assocErase p.entityToComponentMap e) e' = some s' := by
        rw [assocFind_assocErase, if_neg (fun hc => hne hc.symm), hfs']
      constructor
      · show (assocFind (assocErase p.entityToComponentMap e) e').isSome = true
        rw [hfind']
        rfl
      · show (assocFind (assocErase p.entityToComponentMap e) e').map
            (fun t => p.components.dropLast.getD t default) =
          (assocFind p.entityToComponentMap e').map
            (fun t => p.components.getD t default)
        rw [hfind', hfs']
        simp only [Option.map_some']
        rw [getD_dropLast _ _ _ (by omega)]
  · have hcnt : 0 < p.count := by omega
    rw [RemoveComponent_eq_not_last p e s hfs hlc hld hcnt hslast]
    have hflast : assocFind p.entityToComponentMap
        (p.componentToEntityMap.getD (p.count - 1) 0) = some (p.count - 1) :=
      hinv (p.count - 1) (by omega)
    have hlene : p.componentToEntityMap.getD (p.count - 1) 0 ≠ e := by
      intro hc
      rw [hc, hfs] at hflast
      exact hslast (by injection hflast)
    constructor
    · show (assocFind (assocErase
          (assocSet p.entityToComponentMap (p.componentToEntityMap.getD (p.count - 1) 0) s)
          e) e).isSome = false
      rw [assocFind_assocErase, if_pos rfl]
      rfl
    · intro e' hne hhe'
      rw [ComponentPool.HasEntity] at hhe'
      cases hfs' : assocFind p.entityToComponentMap e' with
      | none => rw [hfs'] at hhe'; exact absurd hhe' (by simp)
      | some s' =>
      obtain ⟨hsc', hsd'⟩ := hmem (e', s') (assocFind_mem _ _ _ hfs')
      simp only at hsc' hsd'
      have hss' : s' ≠ s := by
        intro hc
        exact hne (by rw [← hsd', hc, hsd])
      by_cases heq : e' = p.componentToEntityMap.getD (p.count - 1) 0
      · have hs'last : s' = p.count - 1 := by
          rw [← heq] at hflast
          rw [hfs'] at hflast
          injection hflast
        have hfind' : assocFind (assocErase
            (assocSet p.entityToComponentMap (p.componentToEntityMap.getD (p.count - 1) 0) s)
            e) e' = some s := by
          rw [assocFind_assocErase, if_neg (fun hc => hne hc.symm),
            assocFind_assocSet, if_pos heq.symm]
        constructor
        · show (assocFind (assocErase
              (assocSet p.entityToComponentMap (p.componentToEntityMap.getD (p.count - 1) 0) s)
              e) e').isSome = true
          rw [hfind']
          rfl
        · show (assocFind (assocErase
              (assocSet p.entityToComponentMap (p.componentToEntityMap.getD (p.count - 1) 0) s)
              e) e').map
              (fun t => ((p.components.set s
                (p.components.getD (p.count - 1) default)).dropLast).getD t default) =
            (assocFind p.entityToComponentMap e').map
              (fun t => p.components.getD t default)
          rw [hfind', hfs']
          simp only [Option.map_some']
          rw [getD_dropLast _ _ _ (by rw [List.length_set]; omega),
            getD_set_self _ _ _ _ (by omega), hs'last]
      · have hs'last : s' ≠ p.count - 1 := by
          intro hc
          exact heq (by rw [← hsd', hc])
        have hfind' : assocFind (assocErase
            (assocSet p.entityToComponentMap (p.componentToEntityMap.getD (p.count - 1) 0) s)
            e) e' = some s' := by
          rw [assocFind_assocErase, if_neg (fun hc => hne hc.symm),
            assocFind_assocSet, if_neg (fun hc => heq hc.symm), hfs']
        constructor
        · show (assocFind (assocErase
              (assocSet p.entityToComponentMap (p.componentToEntityMap.getD (p.count - 1) 0) s)
              e) e').isSome = true
          rw [hfind']
          rfl
        · show (assocFind (assocErase
              (assocSet p.entityToComponentMap (p.componentToEntityMap.getD (p.count - 1) 0) s)
              e) e').map
              (fun t => ((p.components.set s
                (p.components.getD (p.count - 1) default)).dropLast).getD t default) =
            (assocFind p.entityToComponentMap e').map
              (fun t => p.components.getD t default)
          rw [hfind', hfs']
          simp only [Option.map_some']
          rw [getD_dropLast _ _ _ (by rw [List.length_set]; omega),
            getD_set_ne _ _ _ _ _ (fun hc => hss' hc.symm)]

/-- Fixture pool with three live elements for the removal witness. -/
def demoPool3 : ComponentPool Nat :=
  { components := [10, 20, 30], count := 3, poolSize := 32,
    entityToComponentMap := [(4, 0), (6, 1), (8, 2)], componentToEntityMap := [4, 6, 8],
    sorted := false }

theorem removeComponent_preserves_others_witness :
    PoolWF demoPool3 ∧ demoPool3.HasEntity 6 = true ∧
    ((demoPool3.RemoveComponent 6).HasEntity 6 = false ∧
      ∀ e' : Nat, e' ≠ 6 → demoPool3.HasEntity e' = true →
        (demoPool3.RemoveComponent 6).HasEntity e' = true ∧
        (demoPool3.RemoveComponent 6).GetComponent e' = demoPool3.GetComponent e') :=
  ⟨by decide, by decide,
    removeComponent_preserves_others demoPool3 6 (by decide) (by decide)⟩

/-! ### The sorted flag across mutations (claim C3)

In ComponentPool.h the only writes to `m_Sorted` are its initialiser
(`= false`) and `SetSorted` (called with `true` by World::Sort).  Neither
`AddComponent` nor `RemoveComponent` nor `SetComponent` touches it, although
the doc comment of `IsSorted` states the flag is "set to false when a new
component is added". -/

theorem AddComponent_keeps_sorted_field [Inhabited α] (p : ComponentPool α) (e : Nat) (v : α) :
    (p.AddComponent e v).sorted = p.sorted := by
  unfold ComponentPool.AddComponent ComponentPool.AddComponentToPool
  dsimp only
  split <;> rfl

theorem RemoveComponent_keeps_sorted_field [Inhabited α] (p : ComponentPool α) (e : Nat) :
    (p.RemoveComponent e).sorted = p.sorted := by
  unfold ComponentPool.RemoveComponent ComponentPool.mapIndex ComponentPool.RemoveComponentFromPool
  cases h : assocFind p.entityToComponentMap e <;>
    · dsimp only
      split <;> rfl

theorem SetComponent_keeps_sorted_field [Inhabited α] (p : ComponentPool α) (e : Nat) (v : α) :
    (p.SetComponent e v).sorted = p.sorted := rfl

/-- Fixture pool whose sorted flag is set, as World::Sort leaves it. -/
def demoPoolSorted : ComponentPool Nat :=
  { components := [10, 20], count := 2, poolSize := 32,
    entityToComponentMap := [(4, 0), (6, 1)], componentToEntityMap := [4, 6],
    sorted := true }

/-- Claim C3 evaluated at the failing input: on a pool with the sorted flag
set, `AddComponent` and `RemoveComponent` leave `IsSorted()` true — the code
never clears `m_Sorted` — while `SetComponent` (correctly per the claim) also
leaves it true. -/
theorem sorted_flag_not_cleared_by_add_remove :
    (demoPoolSorted.AddComponent 9 99).IsSorted = true ∧
    (demoPoolSorted.RemoveComponent 4).IsSorted = true ∧
    (demoPoolSorted.SetComponent 4 50).IsSorted = true := by
  refine ⟨?_, ?_, ?_⟩ <;> decide

/-! ### Registry (Registry.h)

`m_ComponentPools`, `m_ComponentTypeMap` (the `std::type_index` key is an
opaque `Nat` token), `m_EntityNameMap`, `m_FreeEntityIDs` (a FIFO queue:
front = list head, push = append) and `m_NextEntityID` (uint32).  The
declared-but-never-used `m_Entities` vector is omitted. -/

structure Registry (α : Type) where
  componentPools : List (ComponentPool α)
  componentTypeMap : List (Nat × Nat)
  entityNameMap : List (String × Nat)
  freeEntityIDs : List Nat
  nextEntityID : Nat

namespace Registry

/-- `m_ComponentPools[componentID]` (callers always pass a registered id). -/
def GetComponentPool (r : Registry α) (cid : Nat) : ComponentPool α :=
  r.componentPools.getD cid ComponentPool.mkPool

/-- Registry::HasComponent. -/
def HasComponent (r : Registry α) (e cid : Nat) : Bool :=
  (r.GetComponentPool cid).HasEntity e

/-- Registry::HasComponents: scan the id array, false at the first miss. -/
def HasComponents (r : Registry α) (e : Nat) : List Nat → Bool
  | [] => true
  | cid :: rest => if r.HasComponent e cid then r.HasComponents e rest else false

/-- Registry::AddComponent: route to the owning pool. -/
def AddComponent (r : Registry α) (e cid : Nat) (v : α) : Registry α :=
  { r with componentPools :=
      r.componentPools.set cid ((r.GetComponentPool cid).AddComponent e v) }

/-- Registry::SetComponent: add when the component is absent, else overwrite. -/
def SetComponent (r : Registry α) (e cid : Nat) (v : α) : Registry α :=
  if r.HasComponent e cid = false then
    r.AddComponent e cid v
  else
    { r with componentPools :=
        r.componentPools.set cid ((r.GetComponentPool cid).SetComponent e v) }

/-- Registry::RemoveComponent: no-op when absent. -/
def RemoveComponent (r : Registry α) (e cid : Nat) : Registry α :=
  if r.HasComponent e cid = true then
    { r with componentPools :=
        r.componentPools.set cid ((r.GetComponentPool cid).RemoveComponent e) }
  else r

/-- Registry::GetComponent: null when absent. -/
def GetComponent [Inhabited α] (r : Registry α) (e cid : Nat) : Option α :=
  if r.HasComponent e cid = true then (r.GetComponentPool cid).GetComponent e
  else none

/-- The scan loop of Registry::GetSmallestComponentPool, carrying
`smallestSize` and `smallestComponentID`. -/
def smallestLoop (r : Registry α) : Nat → Nat → List Nat → Nat
  | _, smallestID, [] => smallestID
  | smallestSize, smallestID, cid :: rest =>
    if (r.GetComponentPool cid).GetCount < smallestSize then
      smallestLoop r (r.GetComponentPool cid).GetCount cid rest
    else
      smallestLoop r smallestSize smallestID rest

/-- The component id selected by Registry::GetSmallestComponentPool (the
C++ reads `componentIDs[0]` first, so the array is nonempty in every call;
the `[]` case is dead). -/
def GetSmallestComponentID (r : Registry α) : List Nat → Nat
  | [] => 0
  | cid0 :: rest => smallestLoop r (r.GetComponentPool cid0).GetCount cid0 rest

/-- Registry::GetSmallestComponentPool. -/
def GetSmallestComponentPool (r : Registry α) (cids : List Nat) : ComponentPool α :=
  r.GetComponentPool (r.GetSmallestComponentID cids)

/-- Registry::CreateEntity: pop the free queue, else `m_NextEntityID++`
(uint32). -/
def CreateEntity (r : Registry α) : Registry α × Nat :=
  match r.freeEntityIDs with
  | id :: rest => ({ r with freeEntityIDs := rest }, id)
  | [] => ({ r with nextEntityID := (r.nextEntityID + 1) % 2 ^ 32 }, r.nextEntityID)

/-- Registry::CreateEntity(name): return the mapped id when the name is
taken, else create a fresh entity and bind the name. -/
def CreateEntityNamed (r : Registry α) (name : String) : Registry α × Nat :=
  match assocFind r.entityNameMap name with
  | some id => (r, id)
  | none =>
    let ri := r.CreateEntity
    ({ ri.1 with entityNameMap := assocSet ri.1.entityNameMap name ri.2 }, ri.2)

/-- Registry::DestroyEntity: the body is empty. -/
def DestroyEntity (r : Registry α) (e : Nat) : Registry α := r

/-- Registry::GetComponentID for the opaque type token `t`: return the
registered id; else refuse at 254 registered types; else append a fresh pool
(ComponentPool(sizeof(T), alignof(T), name) — an empty pool in the typed
model) and bind the token to `uint8_t(pools.size() - 1)`. -/
def GetComponentID (r : Registry α) (t : Nat) : Registry α × Nat :=
  match assocFind r.componentTypeMap t with
  | some cid => (r, cid)
  | none =>
    if MAX_COMPONENT_TYPES ≤ r.componentTypeMap.length then
      (r, INVALID_COMPONENT_ID)
    else
      let pools := r.componentPools ++ [ComponentPool.mkPool]
      let cid := (pools.length - 1) % 256
      ({ r with componentPools := pools,
                componentTypeMap := assocSet r.componentTypeMap t cid }, cid)

end Registry

/-- The entity sequence of the `for (i = 0; i < Size(); i++) GetEntityID(i)`
loops in View::Each. -/
def denseEntities (p : ComponentPool α) : List Nat :=
  (List.range p.count).map (fun i => p.GetEntityID i)

/-- View::Each, modelled as the list of entity ids for which `func` is
invoked, in loop order: the single-component fast path iterates the dense map
directly; the general path iterates the smallest pool and filters entities
carrying all component types. -/
def eachVisits (r : Registry α) : List Nat → List Nat
  | [] => []
  | [cid] => denseEntities (r.GetComponentPool cid)
  | cid1 :: cid2 :: rest =>
    (denseEntities (r.GetSmallestComponentPool (cid1 :: cid2 :: rest))).filter
      (fun e => r.HasComponents e (cid1 :: cid2 :: rest))

/-! ### View::Each visits exactly the join (claim C4) -/

theorem denseEntities_nodup (p : ComponentPool α) (hwf : PoolWF p) :
    (denseEntities p).Nodup := by
  obtain ⟨⟨_, _, _, hinv⟩, _⟩ := hwf
  refine List.Nodup.map_on ?_ (List.nodup_range _)
  intro i hi j hj hf
  rw [List.mem_range] at hi hj
  have h1 := hinv i hi
  have h2 := hinv j hj
  simp only [ComponentPool.GetEntityID] at hf
  rw [hf] at h1
  rw [h2] at h1
  injection h1 with h
  exact h.symm

theorem mem_denseEntities (p : ComponentPool α) (hwf : PoolWF p) (e : Nat) :
    e ∈ denseEntities p ↔ p.HasEntity e = true := by
  obtain ⟨⟨_, _, _, hinv⟩, hmem⟩ := hwf
  constructor
  · intro h
    obtain ⟨i, hi, rfl⟩ := List.mem_map.mp h
    rw [List.mem_range] at hi
    rw [ComponentPool.HasEntity, ComponentPool.GetEntityID, hinv i hi]
    rfl
  · intro h
    rw [ComponentPool.HasEntity] at h
    cases hf : assocFind p.entityToComponentMap e with
    | none => rw [hf] at h; exact absurd h (by simp)
    | some s =>
      obtain ⟨hsc, hsd⟩ := hmem (e, s) (assocFind_mem _ _ _ hf)
      simp only at hsc hsd
      refine List.mem_map.mpr ⟨s, List.mem_range.mpr hsc, ?_⟩
      rw [ComponentPool.GetEntityID, hsd]

theorem smallestLoop_mem (r : Registry α) :
    ∀ (cs : List Nat) (ss si : Nat),
      Registry.smallestLoop r ss si cs = si ∨ Registry.smallestLoop r ss si cs ∈ cs := by
  intro cs
  induction cs with
  | nil => intro ss si; exact Or.inl rfl
  | cons c rest ih =>
    intro ss si
    rw [Registry.smallestLoop]
    by_cases h : (r.GetComponentPool c).GetCount < ss
    · rw [if_pos h]
      rcases ih (r.GetComponentPool c).GetCount c with h1 | h1
      · right
        rw [h1]
        exact List.mem_cons_self c rest
      · exact Or.inr (List.mem_cons_of_mem c h1)
    · rw [if_neg h]
      rcases ih ss si with h1 | h1
      · exact Or.inl h1
      · exact Or.inr (List.mem_cons_of_mem c h1)

theorem GetSmallestComponentID_mem (r : Registry α) (cid0 : Nat) (rest : List Nat) :
    r.GetSmallestComponentID (cid0 :: rest) ∈ cid0 :: rest := by
  rw [Registry.GetSmallestComponentID]
  rcases smallestLoop_mem r rest (r.GetComponentPool cid0).GetCount cid0 with h | h
  · rw [h]
    exact List.mem_cons_self cid0 rest
  · exact List.mem_cons_of_mem cid0 h

theorem hasComponents_iff (r : Registry α) (e : Nat) :
    ∀ cids : List Nat,
      r.HasComponents e cids = true ↔ ∀ cid ∈ cids, r.HasComponent e cid = true := by
  intro cids
  induction cids with
  | nil => simp [Registry.HasComponents]
  | cons c rest ih =>
    rw [Registry.HasComponents]
    by_cases h : r.HasComponent e c
    · rw [if_pos h]
      rw [ih]
      constructor
      · intro hall cid hcid
        rcases List.mem_cons.mp hcid with rfl | hcid
        · exact h
        · exact hall cid hcid
      · intro hall cid hcid
        exact hall cid (List.mem_cons_of_mem c hcid)
    · rw [if_neg h]
      constructor
      · intro hc
        exact absurd hc (by simp)
      · intro hall
        exact absurd (hall c (List.mem_cons_self c rest)) h

/-- Claim C4: `View::Each` over the component ids `cids` (all pools
well-formed) invokes the callback exactly once per entity present in all the
participating pools and never for an entity missing one of them: the visit
list has no duplicates and contains precisely the entities carrying all the
component types; hence the visit count equals the number of such entities. -/
theorem eachVisits_exactly_join (r : Registry α) (cids : List Nat)
    (hne : cids ≠ [])
    (hWF : ∀ cid ∈ cids, PoolWF (r.GetComponentPool cid)) :
    (eachVisits r cids).Nodup ∧
    ∀ e : Nat, e ∈ eachVisits r cids ↔ r.HasComponents e cids = true := by
  match cids with
  | [] => exact absurd rfl hne
  | [cid] =>
    have hwf := hWF cid (List.mem_cons_self cid [])
    rw [eachVisits]
    refine ⟨denseEntities_nodup _ hwf, ?_⟩
    intro e
    rw [mem_denseEntities _ hwf e, Registry.HasComponents, Registry.HasComponents]
    by_cases h : r.HasComponent e cid
    · rw [if_pos h]
      rw [Registry.HasComponent] at h
      simp [h]
    · rw [if_neg h]
      rw [Registry.HasComponent] at h
      constructor
      · intro hc; exact absurd hc h
      · intro hc; exact absurd hc (by simp)
  | cid1 :: cid2 :: rest =>
    have hsmem := GetSmallestComponentID_mem r cid1 (cid2 :: rest)
    have hwfs : PoolWF (r.GetSmallestComponentPool (cid1 :: cid2 :: rest)) :=
      hWF _ hsmem
    rw [eachVisits]
    constructor
    · exact (denseEntities_nodup _ hwfs).filter _
    · intro e
      rw [List.mem_filter]
      constructor
      · intro h
        exact h.2
      · intro h
        refine ⟨?_, h⟩
        rw [mem_denseEntities _ hwfs e]
        have hhas : r.HasComponent e (r.GetSmallestComponentID (cid1 :: cid2 :: rest)) = true :=
          (hasComponents_iff r e (cid1 :: cid2 :: rest)).mp h _ hsmem
        rw [Registry.HasComponent] at hhas
        exact hhas

/-- Fixture registry for the view witness: component 0 held by entities
1,2,3; component 1 held by entities 2,3. -/
def demoRegistry : Registry Nat :=
  { componentPools :=
      [{ components := [11, 12, 13], count := 3, poolSize := 32,
         entityToComponentMap := [(1, 0), (2, 1), (3, 2)], componentToEntityMap := [1, 2, 3],
         sorted := false },
       { components := [21, 22], count := 2, poolSize := 32,
         entityToComponentMap := [(2, 0), (3, 1)], componentToEntityMap := [2, 3],
         sorted := false }],
    componentTypeMap := [(0, 0), (1, 1)],
    entityNameMap := [], freeEntityIDs := [], nextEntityID := 4 }

theorem eachVisits_exactly_join_witness :
    ([0, 1] : List Nat) ≠ [] ∧
    (∀ cid ∈ ([0, 1] : List Nat), PoolWF (demoRegistry.GetComponentPool cid)) ∧
    ((eachVisits demoRegistry [0, 1]).Nodup ∧
      ∀ e : Nat, e ∈ eachVisits demoRegistry [0, 1] ↔
        demoRegistry.HasComponents e [0, 1] = true) :=
  ⟨by decide, by decide,
    eachVisits_exactly_join demoRegistry [0, 1] (by decide) (by decide)⟩

/-! ### Registry::SetComponent on an absent entity acts as AddComponent
(claim C5) -/

theorem AddComponent_parts [Inhabited α] (p : ComponentPool α) (e : Nat) (v : α) :
    (p.AddComponent e v).entityToComponentMap = assocSet p.entityToComponentMap e p.count ∧
    (p.AddComponent e v).components = p.components ++ [v] ∧
    (p.AddComponent e v).count = p.count + 1 ∧
    (p.AddComponent e v).componentToEntityMap = p.componentToEntityMap ++ [e] := by
  unfold ComponentPool.AddComponent ComponentPool.AddComponentToPool
  dsimp only
  split <;> exact ⟨rfl, rfl, rfl, rfl⟩

/-- Claim C5: for an entity `e` absent from the pool of component `cid`,
`Registry::SetComponent` takes the add branch, so it produces exactly the
state of `Registry::AddComponent`; afterwards the component is present and
reads back the stored value. -/
theorem setComponent_absent_acts_as_add [Inhabited α] (r : Registry α) (e cid : Nat) (v : α)
    (hcid : cid < r.componentPools.length)
    (hlen : (r.GetComponentPool cid).components.length = (r.GetComponentPool cid).count)
    (habs : r.HasComponent e cid = false) :
    r.SetComponent e cid v = r.AddComponent e cid v ∧
    (r.SetComponent e cid v).HasComponent e cid = true ∧
    (r.SetComponent e cid v).GetComponent e cid = some v := by
  have heq : r.SetComponent e cid v = r.AddComponent e cid v := by
    unfold Registry.SetComponent
    rw [if_pos habs]
  obtain ⟨hm, hc, hn, hd⟩ := AddComponent_parts (r.GetComponentPool cid) e v
  have hpool : (r.AddComponent e cid v).GetComponentPool cid =
      (r.GetComponentPool cid).AddComponent e v := by
    unfold Registry.AddComponent Registry.GetComponentPool
    exact getD_set_self _ _ _ _ hcid
  have hhas : (r.AddComponent e cid v).HasComponent e cid = true := by
    rw [Registry.HasComponent, hpool, ComponentPool.HasEntity, hm,
      assocFind_assocSet, if_pos rfl]
    rfl
  refine ⟨heq, heq ▸ hhas, ?_⟩
  rw [heq, Registry.GetComponent, if_pos hhas, hpool, ComponentPool.GetComponent, hm,
    assocFind_assocSet, if_pos rfl, Option.map_some', hc, ← hlen, getD_append_length]

theorem setComponent_absent_acts_as_add_witness :
    (0 : Nat) < demoRegistry.componentPools.length ∧
    (demoRegistry.GetComponentPool 0).components.length =
      (demoRegistry.GetComponentPool 0).count ∧
    demoRegistry.HasComponent 9 0 = false ∧
    (demoRegistry.SetComponent 9 0 77 = demoRegistry.AddComponent 9 0 77 ∧
      (demoRegistry.SetComponent 9 0 77).HasComponent 9 0 = true ∧
      (demoRegistry.SetComponent 9 0 77).GetComponent 9 0 = some 77) :=
  ⟨by decide, by decide, by decide,
    setComponent_absent_acts_as_add demoRegistry 9 0 77 (by decide) (by decide) (by decide)⟩

/-! ### Registry::GetComponentID capacity (claim C6) -/

/-- Claim C6: registering a fresh type token while fewer than 254 types are
registered yields the next id counting from 0 (the number of already
registered types) and appends one pool and one type binding; at 254
registered types the call returns `INVALID_COMPONENT_ID` (0xFF) and leaves
the registry unchanged. -/
theorem getComponentID_fresh_and_cap (r : Registry α) (t : Nat)
    (hlen : r.componentPools.length = r.componentTypeMap.length)
    (hfresh : assocFind r.componentTypeMap t = none) :
    (r.componentTypeMap.length < MAX_COMPONENT_TYPES →
      (r.GetComponentID t).2 = r.componentTypeMap.length ∧
      (r.GetComponentID t).1.componentTypeMap =
        assocSet r.componentTypeMap t r.componentTypeMap.length ∧
      (r.GetComponentID t).1.componentPools =
        r.componentPools ++ [ComponentPool.mkPool] ∧
      (r.GetComponentID t).1.componentPools.length =
        (r.GetComponentID t).1.componentTypeMap.length) ∧
    (MAX_COMPONENT_TYPES ≤ r.componentTypeMap.length →
      (r.GetComponentID t).2 = INVALID_COMPONENT_ID ∧
      (r.GetComponentID t).1 = r) := by
  unfold Registry.GetComponentID
  rw [hfresh]
  dsimp only
  constructor
  · intro hlt
    rw [if_neg (by omega)]
    have hcid : (r.componentPools ++ [ComponentPool.mkPool]).length - 1 =
        r.componentTypeMap.length := by
      rw [List.length_append]
      simp [hlen]
    have hmod : ((r.componentPools ++ [ComponentPool.mkPool]).length - 1) % 256 =
        r.componentTypeMap.length := by
      rw [hcid]
      exact Nat.mod_eq_of_lt (by
        have : MAX_COMPONENT_TYPES = 254 := rfl
        omega)
    refine ⟨hmod, by rw [hmod], rfl, ?_⟩
    dsimp only
    rw [List.length_append, hlen]
    rw [assocSet_length_of_none _ _ _ hfresh]
    simp
  · intro hge
    rw [if_pos hge]
    exact ⟨rfl, rfl⟩

/-- Fixture registry with 254 registered component types. -/
def fullRegistry : Registry Nat :=
  { componentPools := List.replicate 254 ComponentPool.mkPool,
    componentTypeMap := (List.range 254).map (fun i => (i, i)),
    entityNameMap := [], freeEntityIDs := [], nextEntityID := 0 }

set_option maxRecDepth 8000 in
theorem getComponentID_fresh_and_cap_witness :
    fullRegistry.componentPools.length = fullRegistry.componentTypeMap.length ∧
    assocFind fullRegistry.componentTypeMap 300 = none ∧
    ((fullRegistry.componentTypeMap.length < MAX_COMPONENT_TYPES →
      (fullRegistry.GetComponentID 300).2 = fullRegistry.componentTypeMap.length ∧
      (fullRegistry.GetComponentID 300).1.componentTypeMap =
        assocSet fullRegistry.componentTypeMap 300 fullRegistry.componentTypeMap.length ∧
      (fullRegistry.GetComponentID 300).1.componentPools =
        fullRegistry.componentPools ++ [ComponentPool.mkPool] ∧
      (fullRegistry.GetComponentID 300).1.componentPools.length =
        (fullRegistry.GetComponentID 300).1.componentTypeMap.length) ∧
    (MAX_COMPONENT_TYPES ≤ fullRegistry.componentTypeMap.length →
      (fullRegistry.GetComponentID 300).2 = INVALID_COMPONENT_ID ∧
      (fullRegistry.GetComponentID 300).1 = fullRegistry)) :=
  ⟨by decide, by decide,
    getComponentID_fresh_and_cap fullRegistry 300 (by decide) (by decide)⟩

/-! ### Named entity creation is idempotent (claim C7) -/

/-- Claim C7: a second `CreateEntity(name)` with the same name returns the id
of the first call and leaves the whole registry state unchanged. -/
theorem createEntityNamed_idempotent (r : Registry α) (name : String) :
    (((r.CreateEntityNamed name).1.CreateEntityNamed name)).2 =
      (r.CreateEntityNamed name).2 ∧
    (((r.CreateEntityNamed name).1.CreateEntityNamed name)).1 =
      (r.CreateEntityNamed name).1 := by
  have key : ∀ (r' : Registry α) (id' : Nat),
      assocFind r'.entityNameMap name = some id' → r'.CreateEntityNamed name = (r', id') := by
    intro r' id' hfind
    unfold Registry.CreateEntityNamed
    rw [hfind]
  cases h : assocFind r.entityNameMap name with
  | some id =>
    rw [key r id h]
    dsimp only
    rw [key r id h]
    exact ⟨rfl, rfl⟩
  | none =>
    have h1 : (r.CreateEntityNamed name).1.entityNameMap =
        assocSet (r.CreateEntity).1.entityNameMap name (r.CreateEntity).2 ∧
        (r.CreateEntityNamed name).2 = (r.CreateEntity).2 := by
      unfold Registry.CreateEntityNamed
      rw [h]
      exact ⟨rfl, rfl⟩
    have h2 : assocFind (r.CreateEntityNamed name).1.entityNameMap name =
        some (r.CreateEntityNamed name).2 := by
      rw [h1.1, h1.2, assocFind_assocSet, if_pos rfl]
    rw [key _ _ h2]
    exact ⟨rfl, rfl⟩

/-! ### DestroyEntity is a no-op (claim C8) -/

/-- Claim C8: `Registry::DestroyEntity` has an empty body, so every component
pool, the name map, the free-id queue and the next-id counter are unchanged,
`HasComponent` answers as before for every component id, and the entity id is
not pushed onto the free queue. -/
theorem destroyEntity_noop [Inhabited α] (r : Registry α) (e : Nat) :
    (r.DestroyEntity e).componentPools = r.componentPools ∧
    (r.DestroyEntity e).entityNameMap = r.entityNameMap ∧
    (r.DestroyEntity e).freeEntityIDs = r.freeEntityIDs ∧
    (r.DestroyEntity e).nextEntityID = r.nextEntityID ∧
    (∀ cid : Nat, (r.DestroyEntity e).HasComponent e cid = r.HasComponent e cid) ∧
    (∀ cid : Nat, (r.DestroyEntity e).GetComponent e cid = r.GetComponent e cid) ∧
    (e ∈ (r.DestroyEntity e).freeEntityIDs ↔ e ∈ r.freeEntityIDs) :=
  ⟨rfl, rfl, rfl, rfl, fun _ => rfl, fun _ => rfl, Iff.rfl⟩

/-! ### Smallest pool selection (claim C9) -/

theorem smallestLoop_spec (r : Registry α) :
    ∀ (cs : List Nat) (si : Nat),
      ((r.GetComponentPool
          (Registry.smallestLoop r (r.GetComponentPool si).GetCount si cs)).GetCount ≤
        (r.GetComponentPool si).GetCount ∧
       ∀ c ∈ cs,
        (r.GetComponentPool
          (Registry.smallestLoop r (r.GetComponentPool si).GetCount si cs)).GetCount ≤
          (r.GetComponentPool c).GetCount) ∧
      (Registry.smallestLoop r (r.GetComponentPool si).GetCount si cs = si ∨
       ((r.GetComponentPool
           (Registry.smallestLoop r (r.GetComponentPool si).GetCount si cs)).GetCount <
          (r.GetComponentPool si).GetCount ∧
        List.find? (fun c => (r.GetComponentPool c).GetCount ≤
            (r.GetComponentPool
              (Registry.smallestLoop r (r.GetComponentPool si).GetCount si cs)).GetCount) cs =
          some (Registry.smallestLoop r (r.GetComponentPool si).GetCount si cs))) := by
  intro cs
  induction cs with
  | nil =>
    intro si
    exact ⟨⟨le_refl _, fun c hc => absurd hc (List.not_mem_nil c)⟩, Or.inl rfl⟩
  | cons c rest ih =>
    intro si
    rw [Registry.smallestLoop]
    by_cases h : (r.GetComponentPool c).GetCount < (r.GetComponentPool si).GetCount
    · rw [if_pos h]
      obtain ⟨⟨m1, m2⟩, mf⟩ := ih c
      refine ⟨⟨le_of_lt (lt_of_le_of_lt m1 h), ?_⟩, ?_⟩
      · intro c' hc'
        rcases List.mem_cons.mp hc' with rfl | hc'
        · exact m1
        · exact m2 c' hc'
      · right
        refine ⟨lt_of_le_of_lt m1 h, ?_⟩
        rcases mf with hres | ⟨hlt, hfind⟩
        · rw [hres]
          rw [List.find?_cons_of_pos _ (by simp)]
        · rw [List.find?_cons_of_neg _ (by simp only [decide_eq_true_eq]; omega), hfind]
    · rw [if_neg h]
      obtain ⟨⟨m1, m2⟩, mf⟩ := ih si
      refine ⟨⟨m1, ?_⟩, ?_⟩
      · intro c' hc'
        rcases List.mem_cons.mp hc' with rfl | hc'
        · omega
        · exact m2 c' hc'
      · rcases mf with hres | ⟨hlt, hfind⟩
        · exact Or.inl hres
        · right
          refine ⟨hlt, ?_⟩
          rw [List.find?_cons_of_neg _ (by simp only [decide_eq_true_eq]; omega), hfind]

/-- Claim C9: for a nonempty id list, `GetSmallestComponentPool` returns the
pool whose count is minimal among the listed pools, and the selected id is
the first element of the list achieving that count (ties broken by first
occurrence). -/
theorem getSmallestComponentPool_minimal (r : Registry α) (cid0 : Nat) (rest : List Nat) :
    (∀ c ∈ cid0 :: rest,
      (r.GetSmallestComponentPool (cid0 :: rest)).GetCount ≤
        (r.GetComponentPool c).GetCount) ∧
    List.find? (fun c => (r.GetComponentPool c).GetCount ≤
        (r.GetSmallestComponentPool (cid0 :: rest)).GetCount) (cid0 :: rest) =
      some (r.GetSmallestComponentID (cid0 :: rest)) := by
  obtain ⟨⟨m1, m2⟩, mf⟩ := smallestLoop_spec r rest cid0
  have hid : r.GetSmallestComponentID (cid0 :: rest) =
      Registry.smallestLoop r (r.GetComponentPool cid0).GetCount cid0 rest := rfl
  have hpool : r.GetSmallestComponentPool (cid0 :: rest) =
      r.GetComponentPool (Registry.smallestLoop r (r.GetComponentPool cid0).GetCount cid0 rest) :=
    rfl
  constructor
  · intro c hc
    rw [hpool]
    rcases List.mem_cons.mp hc with rfl | hc
    · exact m1
    · exact m2 c hc
  · rw [hpool, hid]
    rcases mf with hres | ⟨hlt, hfind⟩
    · rw [hres]
      rw [List.find?_cons_of_pos _ (by simp)]
    · rw [List.find?_cons_of_neg _ (by simp only [decide_eq_true_eq]; omega), hfind]

end MicroECS
